import Mathlib

/-!
Verification of the propertyware_automation extraction-and-reconciliation
pipeline (steps 3-6) against its natural-language specification.

The Python sources are shallowly embedded: pure string manipulation becomes
Lean functions over `String`/`List Char`; the browser-driven main loops become
functions parameterised by an oracle for the scraped page content; file-system
writes become explicit operation traces.  Python `float` arithmetic is
modelled with `ℚ` (exact decimal reading; Python's binary rounding differs
only far beyond the two-decimal precision the pipeline uses).
-/

namespace PyStr

/-- Python `str.isspace` characters relevant to `str.strip()` (ASCII model). -/
def pyIsSpace (c : Char) : Bool :=
  c = ' ' || c = '\t' || c = '\n' || c = '\r' || c = '\x0b' || c = '\x0c'

/-- The list `l` with leading whitespace removed (Python `lstrip`). -/
def lstripL (l : List Char) : List Char := l.dropWhile pyIsSpace

/-- The list `l` with trailing whitespace removed (Python `rstrip`). -/
def rstripL (l : List Char) : List Char := (l.reverse.dropWhile pyIsSpace).reverse

/-- Python `s.strip()` on the character list. -/
def stripL (l : List Char) : List Char := rstripL (lstripL l)

/-- Python `s.strip()`. -/
def pyStrip (s : String) : String := ⟨stripL s.data⟩

/-- Python `s.strip(chars)`: remove the characters of `cs` from both ends. -/
def pyStripSet (s : String) (cs : List Char) : String :=
  ⟨((s.data.dropWhile (cs.contains ·)).reverse.dropWhile (cs.contains ·)).reverse⟩

/-- Python `s.replace(",", "")`: drop every comma. -/
def removeCommas (s : String) : String := ⟨s.data.filter (· ≠ ',')⟩

/-- Python `s.lower()` (ASCII model). -/
def pyLower (s : String) : String := ⟨s.data.map Char.toLower⟩

/-- Helper for Python's no-argument `s.split()`: split on whitespace runs,
dropping empty parts.  `acc` holds the current word reversed. -/
def wsSplitAux : List Char → List Char → List String
  | [], acc => if acc.isEmpty then [] else [⟨acc.reverse⟩]
  | c :: t, acc =>
    if pyIsSpace c then
      if acc.isEmpty then wsSplitAux t [] else (⟨acc.reverse⟩ : String) :: wsSplitAux t []
    else wsSplitAux t (c :: acc)

/-- Python `s.split()` (whitespace split, no empty parts). -/
def pySplitWs (s : String) : List String := wsSplitAux s.data []

/-- The part of `s` before the first comma: `s.split(",", 1)[0]`. -/
def beforeFirstComma (s : String) : String := ⟨s.data.takeWhile (· ≠ ',')⟩

/-- Helper modelling `re.sub(r"\s+", " ", s)`: every maximal whitespace run
becomes a single space.  The flag records whether the previous character was
part of a whitespace run already emitted as `' '`. -/
def collapseWsAux : Bool → List Char → List Char
  | _, [] => []
  | inRun, c :: t =>
    if pyIsSpace c then
      if inRun then collapseWsAux true t else ' ' :: collapseWsAux true t
    else c :: collapseWsAux false t

/-- Python `re.sub(r"\s+", " ", s)` on a character list. -/
def collapseWsL (l : List Char) : List Char := collapseWsAux false l

/-- The ten decimal digit characters. -/
def decDigit (d : Nat) : Char :=
  (['0', '1', '2', '3', '4', '5', '6', '7', '8', '9'].getD d '0')

/-- Numeric value of a decimal digit character. -/
def digitVal (c : Char) : Nat := c.toNat - '0'.toNat

/-- Fuel-driven decimal rendering of a natural number (most significant digit
first); `natDigits` supplies enough fuel for any input. -/
def natDigitsAux : Nat → Nat → List Char
  | 0, _ => []
  | fuel + 1, n =>
    if n < 10 then [decDigit n]
    else natDigitsAux fuel (n / 10) ++ [decDigit (n % 10)]

/-- Decimal digit string of a natural number, e.g. `natDigits 105 = "105".data`. -/
def natDigits (n : Nat) : List Char := natDigitsAux (n + 1) n

/-- Decimal string of a natural number (models rendering `n` with `str`/format). -/
def natStr (n : Nat) : String := ⟨natDigits n⟩

/-- Value of a decimal digit string (fold, most significant digit first). -/
def ofDigitsL (l : List Char) : Nat := l.foldl (fun a c => 10 * a + digitVal c) 0

end PyStr

open PyStr

/-- Model of Python `float(s)` restricted to plain decimal literals:
optional single leading sign, digits with at most one decimal point, at least
one digit.  Returns `none` where `float` raises `ValueError`.  (Exponents,
`inf`/`nan`, underscores and non-ASCII digits are outside the model and are
mapped to `none`; the pipeline's inputs never use them.)  The numeric value is
exact (`ℚ`), idealising the binary rounding of the IEEE double. -/
def pyFloat? (s : String) : Option ℚ :=
  let l := s.data
  let sgn : ℚ := if l.head? = some '-' then -1 else 1
  let l' := if l.head? = some '-' || l.head? = some '+' then l.tail else l
  let ip := l'.takeWhile Char.isDigit
  let rest := l'.drop ip.length
  if rest = [] then
    if ip = [] then none else some (sgn * (ofDigitsL ip : ℚ))
  else if rest.head? = some '.' ∧ rest.tail.all Char.isDigit ∧ (ip ≠ [] ∨ rest.tail ≠ []) then
    some (sgn * ((ofDigitsL ip : ℚ) + (ofDigitsL rest.tail : ℚ) / (10 : ℚ) ^ rest.tail.length))
  else none

/-- Model of `pw_common.safe_float`: strip every character other than digits, `.` and
`-`, then `float(...)`, with `0.0` for empty or unparsable text. -/
def safe_float (text : String) : ℚ :=
  if text = "" then 0
  else
    let t : String := ⟨text.data.filter (fun c => c.isDigit || c = '.' || c = '-')⟩
    if t = "" then 0
    else match pyFloat? t with
      | some q => q
      | none => 0

namespace Step4

/-- One input row of `data/debug/rows_sample.csv` as read by
`step4_opening_url.main` (fields already `.strip()`-ed, as in the source). -/
structure Step3Row where
  lease_href : String
  unit_href : String
  portfolio_href : String
  lease_name : String
deriving DecidableEq, Repr

/-- Constant `step4_opening_url.MAX_QUALIFIERS`: "only collect this many". -/
def MAX_QUALIFIERS : Nat := 10

/-- State threaded through the `main` loop of `step4_opening_url.py`:
collected output rows (with their parsed amount), the
`skipped_total_unpaid_le_1000` counter and the `errors` counter. -/
structure EnrichState where
  out : List (Step3Row × ℚ)
  skipped : Nat
  errors : Nat
deriving DecidableEq, Repr

/-- The per-candidate loop of `step4_opening_url.main`.  The browser is
abstracted by `scrape`, which returns the text of the lease page's
"Total Unpaid" labelled field for the row, or `Except.error` when any
Playwright call in the row's `try` block raises (navigation timeout, lease
page scrape failure, ...).  The unit-address/owner-name sub-scrapes are inside
nested `try/except: pass` blocks and cannot abort the record, so they do not
appear in the control flow.  Faithful control flow: stop as soon as
`MAX_QUALIFIERS` rows are collected, skip rows with an empty lease link,
count scrape errors, count and skip rows with amount `<= 1000.0`, otherwise
append the enriched row. -/
def enrichLoop (scrape : Step3Row → Except Unit String) :
    List Step3Row → EnrichState → EnrichState
  | [], st => st
  | r :: rest, st =>
    if MAX_QUALIFIERS ≤ st.out.length then st
    else if r.lease_href = "" then enrichLoop scrape rest st
    else
      match scrape r with
      | .error _ => enrichLoop scrape rest { st with errors := st.errors + 1 }
      | .ok t =>
        if safe_float t ≤ 1000 then
          enrichLoop scrape rest { st with skipped := st.skipped + 1 }
        else
          enrichLoop scrape rest { st with out := st.out ++ [(r, safe_float t)] }

/-- The whole Step-4 run starting from the empty state. -/
def enrichRun (scrape : Step3Row → Except Unit String) (rows : List Step3Row) : EnrichState :=
  enrichLoop scrape rows ⟨[], 0, 0⟩

/-- A row qualifies for emission: nonempty lease link, successful scrape, and
parsed amount strictly above 1000. -/
def qualifies (scrape : Step3Row → Except Unit String) (r : Step3Row) : Bool :=
  r.lease_href ≠ "" &&
    (match scrape r with
     | .ok t => decide (1000 < safe_float t)
     | .error _ => false)

/-- The amount the loop would parse for a row (0 on scrape failure). -/
def rowAmount (scrape : Step3Row → Except Unit String) (r : Step3Row) : ℚ :=
  match scrape r with
  | .ok t => safe_float t
  | .error _ => 0

/-- Model of `scrape_second_owner_name` (portfolio page `#ownersTable`
branch).  A rendered owners-table row: the optional `td.moreInfo a` link text,
the optional first `a` link text, and the `td` cell texts. -/
structure OwnerRow where
  moreInfoLink : Option String
  firstLink : Option String
  tds : List String
deriving DecidableEq, Repr

instance : Inhabited OwnerRow := ⟨⟨none, none, []⟩⟩

/-- First element of maximal length: the head of Python's stable
`texts.sort(key=len, reverse=True)`. -/
def bestText (l : List String) : Option String :=
  l.foldl
    (fun acc t =>
      match acc with
      | none => some t
      | some b => if b.length < t.length then some t else acc)
    none

/-- Name extraction from one owners-table row, following
`scrape_second_owner_name`: prefer the `td.moreInfo a` link text, then the
first `a` link text, else the longest non-empty, non-`&nbsp;` cell text,
else the empty string. -/
def ownerRowName (r : OwnerRow) : String :=
  match r.moreInfoLink with
  | some txt => pyStrip txt
  | none =>
    match r.firstLink with
    | some txt => pyStrip txt
    | none =>
      let texts := (r.tds.map pyStrip).filter (fun t => t ≠ "" && t ≠ " ")
      match bestText texts with
      | some t => t
      | none => ""

/-- Model of `scrape_second_owner_name` on the `#ownersTable` rows: with at least one
row, pick `rows.nth(1)` when two or more rows exist, else `rows.nth(0)`, and
extract that row's name; with no rows return `""`. -/
def scrape_second_owner_name (rows : List OwnerRow) : String :=
  if 1 ≤ rows.length then
    ownerRowName (if 2 ≤ rows.length then rows.getD 1 default else rows.getD 0 default)
  else ""

end Step4

namespace Step3

/-- One grid row materialised by `step3_rows_sample.process_current_page`
(already filtered by status/county). -/
structure CandidateRow where
  unit_name : String
  unit_href : String
  portfolio_name : String
  portfolio_href : String
  lease_name : String
  lease_href : String
  building_county : String
deriving DecidableEq, Repr

/-- The dedup key of `step3_rows_sample.main`:
`r.get("lease_href") or (r.get("unit_href") + "|" + r.get("portfolio_href"))`
(Python falsiness: the composite is used exactly when the lease link is the
empty string). -/
def rowKey (r : CandidateRow) : String :=
  if r.lease_href ≠ "" then r.lease_href
  else r.unit_href ++ "|" ++ r.portfolio_href

/-- The dedup loop of `step3_rows_sample.main`: skip a row whose (truthy) key
was already seen, otherwise record the key and append the row.  `seen` models
the `seen_leases` set. -/
def dedupRows : List CandidateRow → List String → List CandidateRow
  | [], _ => []
  | r :: rest, seen =>
    if rowKey r ≠ "" ∧ rowKey r ∈ seen then dedupRows rest seen
    else r :: dedupRows rest (rowKey r :: seen)

/-- The cross-page harvest: the `while True` loop of `main` processes the
pages in order while threading `seen_leases` and `out_rows` through, which is
the dedup fold over the concatenation of the per-page row lists. -/
def harvest (pages : List (List CandidateRow)) : List CandidateRow :=
  dedupRows pages.flatten []

end Step3

namespace Step5Details

/-- Model of `step5_other_details.norm`:
`re.sub(r"\s+", " ", (s or "").strip()).lower()`. -/
def norm (s : String) : String :=
  ⟨(collapseWsL (stripL s.data)).map Char.toLower⟩

/-- Anchored match of the alias-separator regex `\s*(?:&|/|,| and )\s*`
(flags=re.I) at the start of `l`; returns the remainder after the match.
Python's backtracking semantics: the greedy `\s*` first consumes the whole
leading whitespace run; a single-character separator (`&`, `/`, `,`) can then
match at its end, while the ` and ` alternative can only match by giving back
exactly one space (its literal leading `' '` must be that space, and `and`
followed by a literal `' '` must follow the run).  The trailing `\s*` then
consumes greedily. -/
def matchSep (l : List Char) : Option (List Char) :=
  let w := (l.takeWhile pyIsSpace).length
  let rest := l.drop w
  match rest with
  | [] => none
  | c :: t =>
    if c = '&' || c = '/' || c = ',' then some (t.dropWhile pyIsSpace)
    else
      match rest with
      | c1 :: c2 :: c3 :: c4 :: t4 =>
        if 1 ≤ w ∧ l.getD (w - 1) ' ' = ' ' ∧ c1.toLower = 'a' ∧ c2.toLower = 'n' ∧
            c3.toLower = 'd' ∧ c4 = ' ' then
          some (t4.dropWhile pyIsSpace)
        else none
      | _ => none

/-- Fuel-driven scan of `re.split`: at each position try to match the
separator; on a match close the current part and continue after it, else
advance one character.  `acc` is the current part reversed.  The fuel
(`length + 1` at the top level) cannot run out because every step consumes at
least one character. -/
def splitSepScan : Nat → List Char → List Char → List (List Char)
  | 0, rest, acc => [acc.reverse ++ rest]
  | _ + 1, [], acc => [acc.reverse]
  | fuel + 1, l@(c :: t), acc =>
    match matchSep l with
    | some rest => acc.reverse :: splitSepScan fuel rest []
    | none => splitSepScan fuel t (c :: acc)

/-- Model of `step5_other_details.split_aliases`: strip, split on
`\s*(?:&|/|,| and )\s*` (case-insensitive), strip the parts, drop empties. -/
def split_aliases (lease_name : String) : List String :=
  let s := pyStrip lease_name
  if s = "" then []
  else
    ((splitSepScan (s.data.length + 1) s.data []).map
        (fun p => pyStrip ⟨p⟩)).filter (· ≠ "")

/-- Association list standing for a Python `dict` built with
"insert only if absent" writes (as both map-building loops do). -/
abbrev SMap := List (String × String)

/-- Python `k in d` / `d[k]` lookup. -/
def mapLookup (m : SMap) (k : String) : Option String :=
  (m.find? (fun p => p.1 == k)).map (·.2)

/-- Python `if k not in d: d[k] = v`. -/
def mapInsertIfAbsent (m : SMap) (k v : String) : SMap :=
  if (mapLookup m k).isSome then m else m ++ [(k, v)]

/-- One row of the Step-3 CSV as consumed by `build_maps_step3` (raw field
texts; the function strips them itself). -/
structure CsvRow where
  lease_href : String
  lease_name : String
  building_county : String
deriving DecidableEq, Repr

/-- The per-row update of `build_maps_step3`'s three accumulators
`(by_href, alias_map, lease_names)`. -/
def buildStep (acc : SMap × SMap × List (String × String)) (r : CsvRow) :
    SMap × SMap × List (String × String) :=
  let lease_href := pyStrip r.lease_href
  let lease_name := pyStrip r.lease_name
  let county := pyStrip r.building_county
  if county ≠ "" then
    let by_href :=
      if lease_href ≠ "" then mapInsertIfAbsent acc.1 lease_href county else acc.1
    if lease_name ≠ "" then
      let lease_names := acc.2.2 ++ [(norm lease_name, county)]
      let alias_map :=
        (split_aliases lease_name).foldl
          (fun am a =>
            if norm a ≠ "" then mapInsertIfAbsent am (norm a) county else am)
          acc.2.1
      (by_href, alias_map, lease_names)
    else (by_href, acc.2.1, acc.2.2)
  else acc

/-- Model of `step5_other_details.build_maps_step3`. -/
def build_maps_step3 (rows : List CsvRow) : SMap × SMap × List (String × String) :=
  rows.foldl buildStep ([], [], [])

/-- Model of `step5_other_details.lookup_county`.  `difflib.get_close_matches`
(stdlib, `n=1, cutoff=0.60`) is abstracted as the parameter `fz`, returning
the best-scoring candidates drawn from its second argument. -/
def lookup_county (fz : String → List String → List String)
    (lease_href tenant_name : String)
    (by_href alias_map : SMap) (lease_names : List (String × String)) : String :=
  match (if lease_href ≠ "" then mapLookup by_href lease_href else none) with
  | some c => c
  | none =>
    match (if norm tenant_name ≠ "" then mapLookup alias_map (norm tenant_name)
        else none) with
    | some c => c
    | none =>
      match (if norm tenant_name ≠ "" then fz (norm tenant_name) (lease_names.map (·.1))
          else []) with
      | best :: _ =>
        match lease_names.find? (fun p => p.1 == best) with
        | some p => p.2
        | none => ""
      | [] => ""

/-- Modelled from the spec (§4.3 "Matching priority"): a four-tier lookup
over the CandidateRecord population — (1) exact lease-link identity,
(2) exact match on the normalized lease/tenant display name, (3) match
against alias decompositions of compound names, (4) best fuzzy match above
the cutoff — each tier consulted only if every earlier tier found nothing.
Used only to compare the spec's description with `lookup_county`. -/
def lookup_county_specFourTier (fz : String → List String → List String)
    (rows : List CsvRow) (lease_href tenant_name : String) : String :=
  let tk := norm tenant_name
  match (if lease_href ≠ "" then
      rows.find? (fun r => pyStrip r.lease_href == lease_href) else none) with
  | some r => pyStrip r.building_county
  | none =>
    match (if tk ≠ "" then rows.find? (fun r => norm (pyStrip r.lease_name) == tk)
        else none) with
    | some r => pyStrip r.building_county
    | none =>
      match (if tk ≠ "" then
          rows.find? (fun r =>
            ((split_aliases (pyStrip r.lease_name)).map norm).contains tk) else none) with
      | some r => pyStrip r.building_county
      | none =>
        match (if tk ≠ "" then fz tk (rows.map (fun r => norm (pyStrip r.lease_name)))
            else []) with
        | best :: _ =>
          match rows.find? (fun r => norm (pyStrip r.lease_name) == best) with
          | some r => pyStrip r.building_county
          | none => ""
        | [] => ""

end Step5Details

namespace Step5Notices

/-- Model of `step5_generate_notices.norm`:
`re.sub(r"\s+", " ", (s or "")).strip().lower()`. -/
def norm (s : String) : String :=
  ⟨(stripL (collapseWsL s.data)).map Char.toLower⟩

/-- One row of the Step-3 CSV as consumed by
`step5_generate_notices.build_maps_from_step3` (fields already extracted by
`pick_first_key`, which strips them). -/
structure CsvRow where
  lease_href : String
  lease_name : String
  building_county : String
deriving DecidableEq, Repr

/-- The per-row update of `build_maps_from_step3`'s accumulators
`(county_by_href, county_by_lease_name, lease_names_list)`; note the list is
appended only when the name key is newly inserted. -/
def buildStep
    (acc : Step5Details.SMap × Step5Details.SMap × List (String × String))
    (r : CsvRow) :
    Step5Details.SMap × Step5Details.SMap × List (String × String) :=
  if r.building_county ≠ "" then
    let by_href :=
      if r.lease_href ≠ "" then
        Step5Details.mapInsertIfAbsent acc.1 r.lease_href r.building_county
      else acc.1
    if r.lease_name ≠ "" then
      let lk := norm r.lease_name
      if lk ≠ "" ∧ (Step5Details.mapLookup acc.2.1 lk).isNone then
        (by_href, acc.2.1 ++ [(lk, r.building_county)],
          acc.2.2 ++ [(lk, r.building_county)])
      else (by_href, acc.2.1, acc.2.2)
    else (by_href, acc.2.1, acc.2.2)
  else acc

/-- Model of `step5_generate_notices.build_maps_from_step3`. -/
def build_maps_from_step3 (rows : List CsvRow) :
    Step5Details.SMap × Step5Details.SMap × List (String × String) :=
  rows.foldl buildStep ([], [], [])

/-- Model of `step5_generate_notices.lookup_county`: three tiers — exact href, exact
normalized lease name, fuzzy (`difflib.get_close_matches`, `n=1,
cutoff=0.75`, abstracted as `fz`). -/
def lookup_county (fz : String → List String → List String)
    (lease_href lease_name : String)
    (county_by_href county_by_lease_name : Step5Details.SMap)
    (lease_names_list : List (String × String)) : String :=
  match (if lease_href ≠ "" then Step5Details.mapLookup county_by_href lease_href
      else none) with
  | some c => c
  | none =>
    match (if norm lease_name ≠ "" then
        Step5Details.mapLookup county_by_lease_name (norm lease_name) else none) with
    | some c => c
    | none =>
      match (if norm lease_name ≠ "" then
          fz (norm lease_name) (lease_names_list.map (·.1)) else []) with
      | best :: _ =>
        match lease_names_list.find? (fun p => p.1 == best) with
        | some p => p.2
        | none => ""
      | [] => ""

end Step5Notices

namespace Money

/-- Two-character zero-padded rendering of the cents part (`%.2f` always emits
exactly two fractional digits). -/
def twoDigits (m : Nat) : List Char := [decDigit (m / 10), decDigit (m % 10)]

/-- Thousands grouping on a reversed digit list: emit `k` more characters,
then a comma before each further group of three. -/
def group3Rev : List Char → Nat → List Char
  | [], _ => []
  | c :: t, 0 => ',' :: c :: group3Rev t 2
  | c :: t, k + 1 => c :: group3Rev t k

/-- Insert thousands separators into a digit string (as `format(n, ",")`). -/
def group3 (ds : List Char) : List Char := (group3Rev ds.reverse 3).reverse

/-- Round `100 * q` to the nearest integer, ties to even: the number of cents
that `f"{f:,.2f}"` displays. -/
def rnd2 (q : ℚ) : ℤ :=
  if 100 * q - ⌊100 * q⌋ < 1 / 2 then ⌊100 * q⌋
  else if 1 / 2 < 100 * q - ⌊100 * q⌋ then ⌊100 * q⌋ + 1
  else if ⌊100 * q⌋ % 2 = 0 then ⌊100 * q⌋ else ⌊100 * q⌋ + 1

/-- The character list of `f"{f:,.2f}"` for a value of `c` cents. -/
def fmtCentsL (c : ℤ) : List Char :=
  (if c < 0 then ['-'] else []) ++ group3 (natDigits (c.natAbs / 100)) ++
    '.' :: twoDigits (c.natAbs % 100)

/-- Rendering `fmtCentsL` without the thousands separators (what re-parsing sees). -/
def plainCentsL (c : ℤ) : List Char :=
  (if c < 0 then ['-'] else []) ++ natDigits (c.natAbs / 100) ++
    '.' :: twoDigits (c.natAbs % 100)

end Money

/-- Model of `money_fmt`, defined identically in `step5_other_details.py`,
`step5_generate_notices.py` and `step6_generate.py` (the last returns
`str(val or "")` on failure, which agrees with `str(val)` on strings):
`float(str(val).replace(",", "").strip())` rendered as `f"{f:,.2f}"`, with the
input passed through unchanged when `float` raises. -/
def money_fmt (val : String) : String :=
  match pyFloat? (pyStrip (removeCommas val)) with
  | some q => ⟨Money.fmtCentsL (Money.rnd2 q)⟩
  | none => val

/-- The street/unit-keyword stop set of `city_from_tenant_address`. -/
def cityStopWords : List String :=
  ["st", "street", "ave", "avenue", "rd", "road", "blvd", "boulevard",
   "hwy", "highway", "pkwy", "parkway", "trl", "trail", "ter", "terrace",
   "ln", "lane", "dr", "drive", "ct", "court", "cir", "circle", "pl", "place",
   "way", "aly", "alley", "apt", "unit", "ste", "suite", "bldg", "fl", "floor",
   "rm", "room", "#"]

/-- The backwards token walk of `city_from_tenant_address`: `toks` is the
token list in right-to-left order, `acc` the city tokens collected so far (in
left-to-right order, since each new token lies left of the previous ones).
A token with a digit or in the stop set ends the walk once something was
collected, and is skipped otherwise. -/
def cityScan : List String → List String → List String
  | [], acc => acc
  | tok :: rest, acc =>
    let t := pyLower (pyStripSet tok [' ', '.', ',', '#'])
    if t.data.any Char.isDigit || cityStopWords.contains t then
      if acc ≠ [] then acc else cityScan rest acc
    else cityScan rest (pyStripSet tok [','] :: acc)

/-- Model of `city_from_tenant_address`, defined identically in
`step5_other_details.py` and `step6_generate.py`: take the part before the
first comma, walk its whitespace tokens from right to left collecting city
tokens until a street/unit keyword or a digit-bearing token is hit (unless
nothing has been collected yet), and fall back to the last token. -/
def city_from_tenant_address (addr : String) : String :=
  let s := pyStrip addr
  if s = "" then ""
  else
    let left := pyStrip (beforeFirstComma s)
    if left = "" then ""
    else
      let tokens := pySplitWs left
      let city := cityScan tokens.reverse []
      if city ≠ [] then " ".intercalate city
      else tokens.getLastD ""

namespace FsTrace

/-- File-system operations performed while persisting a stage's output
artifact.  `openTrunc p` is `open(p, "w")` (truncates `p` immediately);
`writeRows p` is the subsequent `writeheader`/`writerows`; `removeF` is
`os.remove`; `replaceF src dst` is `os.replace(src, dst)`. -/
inductive FsOp where
  | openTrunc : String → FsOp
  | writeRows : String → FsOp
  | removeF : String → FsOp
  | replaceF : String → String → FsOp
deriving DecidableEq, Repr

/-- The artifact write of `step3_rows_sample.main` (lines 325-333):
`with OUT_CSV.open("w", ...) as f: w.writeheader(); w.writerows(out_rows)`. -/
def step3Persist : List FsOp :=
  [.openTrunc "data/debug/rows_sample.csv", .writeRows "data/debug/rows_sample.csv"]

/-- The artifact write of `step4_opening_url.main` (lines 443-446). -/
def step4Persist : List FsOp :=
  [.openTrunc "data/debug/rows_step4.csv", .writeRows "data/debug/rows_step4.csv"]

/-- The artifact write of `step5_other_details.main` (lines 226-229) and of
`step5_generate_notices.main` (lines 166-169); the output name carries the
run date, so it is a parameter. -/
def step5Persist (out : String) : List FsOp :=
  [.openTrunc out, .writeRows out]

/-- The artifact write of `rxtract._safe_write_csv` (lines 91-122, success
path): write to `sample_details.tmp.csv`, remove the previous artifact when
present, then `os.replace` the temporary over the final name. -/
def rxtractPersist (prevExists : Bool) : List FsOp :=
  [.openTrunc "data/debug/sample_details.tmp.csv",
   .writeRows "data/debug/sample_details.tmp.csv"] ++
    (if prevExists then [.removeF "data/debug/sample_details.csv"] else []) ++
    [.replaceF "data/debug/sample_details.tmp.csv" "data/debug/sample_details.csv"]

/-- A trace rewrites `artifact` atomically (write-to-temporary-then-replace):
the artifact path itself is never opened for truncating write, and the data
reaches it through a `replace` of some other path. -/
def writesAtomically (ops : List FsOp) (artifact : String) : Bool :=
  ops.all (fun op => op ≠ .openTrunc artifact) &&
    ops.any (fun op =>
      match op with
      | .replaceF src dst => src ≠ artifact && dst = artifact
      | _ => false)

end FsTrace

namespace Step6

/-- Model of `step6_generate`'s `safe_name`: `re.sub(r"[^\w\-. ]", "_", name)` —
every character outside `[A-Za-z0-9_\-. ]` becomes `_` (ASCII model of
`\w`). -/
def safe_name (s : String) : String :=
  ⟨s.data.map (fun c =>
    if c.isAlphanum || c = '_' || c = '-' || c = '.' || c = ' ' then c else '_')⟩

/-- The `while True` probe loop of `ensure_unique_path`, trying
`{stem}_{i}{suffix}` for `i = 2, 3, ...` until the candidate does not exist.
`fs` is the set of existing paths; the fuel (`fs.length + 1` at the call
site) cannot run out, because that many distinct candidates cannot all be in
`fs`. -/
def eupLoop (fs : List String) (stem suffix : String) : Nat → Nat → String
  | 0, i => stem ++ "_" ++ natStr i ++ suffix
  | fuel + 1, i =>
    let cand := stem ++ "_" ++ natStr i ++ suffix
    if cand ∈ fs then eupLoop fs stem suffix fuel (i + 1) else cand

/-- Model of `step6_generate.ensure_unique_path` over an explicit set `fs` of existing
paths: return `stem ++ suffix` if free, else the first free
`{stem}_{i}{suffix}` for `i = 2, 3, ...`. -/
def ensure_unique_path (fs : List String) (stem suffix : String) : String :=
  if stem ++ suffix ∈ fs then eupLoop fs stem suffix (fs.length + 1) 2
  else stem ++ suffix

/-- The per-record save loop of `step6_generate.py` (lines 217-260) restricted
to path assignment: for each tenant name, build
`{DATE_DIR}_{safe_name}.docx`, pick a non-existing variant with
`ensure_unique_path`, and save (which adds the path to the file system).
Returns the assigned paths in order.  `dateDir` is the run's `DATE_DIR`. -/
def genRun (dateDir : String) : List String → List String → List String
  | _, [] => []
  | fs, tenant :: rest =>
    let p := ensure_unique_path fs (dateDir ++ "_" ++ safe_name tenant) ".docx"
    p :: genRun dateDir (p :: fs) rest

end Step6

namespace Steps6

/-- Model of `steps/step6_generate.slugify_name`: strip, remove every
`\/:*?"<>|`, collapse whitespace runs, truncate to 80 characters,
`"Unknown"` if empty. -/
def slugify_name (name : String) : String :=
  let t := (stripL name.data).filter (fun c =>
    ¬ (c = '\\' || c = '/' || c = ':' || c = '*' || c = '?' || c = '"' ||
       c = '<' || c = '>' || c = '|'))
  let t2 := (collapseWsL t).take 80
  if t2 = [] then "Unknown" else ⟨t2⟩

/-- Association list modelling the `used_names: Dict[str, int]` counter. -/
def usedGet (m : List (String × Nat)) (k : String) : Nat :=
  ((m.find? (fun p => p.1 == k)).map (·.2)).getD 0

/-- Python `used_names[base_name] = n + 1`. -/
def usedSet : List (String × Nat) → String → Nat → List (String × Nat)
  | [], k, v => [(k, v)]
  | (k0, v0) :: t, k, v =>
    if k0 == k then (k, v) :: t else (k0, v0) :: usedSet t k v

/-- The filename-assignment loop of `steps/step6_generate.main` (lines
202-219): each record contributes `(short_date, tenant_name)`; the base name
is `{short_date}_{slug}.docx`; `n = used_names.get(base_name, 0)` previous
uses of that base name give the suffix `_{n+1}`.  Returns the full output
paths `short_date/file_name` in order (`doc.save` writes to exactly that
path, overwriting whatever is there). -/
def assignNames : List (String × String) → List (String × Nat) → List String
  | [], _ => []
  | (shortDate, tenant) :: rest, used =>
    let slug := slugify_name tenant
    let base := shortDate ++ "_" ++ slug ++ ".docx"
    let n := usedGet used base
    let used' := usedSet used base (n + 1)
    let fileName :=
      if n = 0 then base else shortDate ++ "_" ++ slug ++ "_" ++ natStr (n + 1) ++ ".docx"
    (shortDate ++ "/" ++ fileName) :: assignNames rest used'

end Steps6

/-- Input for exercising the Enricher cap: eleven candidate rows, all with a
nonempty lease link. -/
def elevenRows : List Step4.Step3Row :=
  [⟨"L1", "", "", ""⟩, ⟨"L2", "", "", ""⟩, ⟨"L3", "", "", ""⟩, ⟨"L4", "", "", ""⟩,
   ⟨"L5", "", "", ""⟩, ⟨"L6", "", "", ""⟩, ⟨"L7", "", "", ""⟩, ⟨"L8", "", "", ""⟩,
   ⟨"L9", "", "", ""⟩, ⟨"L10", "", "", ""⟩, ⟨"L11", "", "", ""⟩]

/-- A scrape oracle whose every lease page shows "2000" as Total Unpaid. -/
def scrapeTwoThousand : Step4.Step3Row → Except Unit String := fun _ => Except.ok "2000"

/-- Step-3 rows on which the reconciler's alias map shadows an exact
normalized-name match: the compound lease "Bob & Carol" (Alameda) indexes the
alias "bob" before the lease named exactly "Bob" (Contra Costa) can. -/
def aliasShadowRows : List Step5Details.CsvRow :=
  [⟨"", "Bob & Carol", "Alameda"⟩, ⟨"", "Bob", "Contra Costa"⟩]

/-- A fuzzy matcher that never returns a candidate (the fuzzy tier is not
reached in the scenarios using it). -/
def fzNone : String → List String → List String := fun _ _ => []

namespace PyStr

theorem digitVal_decDigit {d : Nat} (h : d < 10) : digitVal (decDigit d) = d := by
  interval_cases d <;> rfl

theorem decDigit_isDigit (d : Nat) : (decDigit d).isDigit = true := by
  by_cases h : d < 10
  · interval_cases d <;> decide
  · have : d ≥ 10 := Nat.le_of_not_lt h
    unfold decDigit
    rw [List.getD_eq_default]
    · decide
    · simpa using this

theorem natDigitsAux_isDigit :
    ∀ fuel n, ∀ c ∈ natDigitsAux fuel n, c.isDigit = true := by
  intro fuel
  induction fuel with
  | zero => intro n c hc; simp [natDigitsAux] at hc
  | succ fuel ih =>
    intro n c hc
    unfold natDigitsAux at hc
    split at hc
    · simp at hc; subst hc; exact decDigit_isDigit _
    · rcases List.mem_append.mp hc with h1 | h2
      · exact ih _ _ h1
      · simp at h2; subst h2; exact decDigit_isDigit _

theorem natDigits_isDigit (n : Nat) : ∀ c ∈ natDigits n, c.isDigit = true :=
  natDigitsAux_isDigit _ n

theorem ofDigitsL_append_singleton (l : List Char) (c : Char) :
    ofDigitsL (l ++ [c]) = 10 * ofDigitsL l + digitVal c := by
  simp [ofDigitsL, List.foldl_append]

theorem ofDigitsL_natDigitsAux : ∀ fuel n, n < fuel → ofDigitsL (natDigitsAux fuel n) = n := by
  intro fuel
  induction fuel with
  | zero => intro n h; omega
  | succ fuel ih =>
    intro n h
    unfold natDigitsAux
    split
    · next h10 => simp [ofDigitsL, digitVal_decDigit h10]
    · next h10 =>
      have h10 : 10 ≤ n := Nat.le_of_not_lt h10
      have hlt : n / 10 < fuel := by
        have := Nat.div_lt_self (by omega : 0 < n) (by omega : 1 < 10)
        omega
      rw [ofDigitsL_append_singleton, ih _ hlt, digitVal_decDigit (Nat.mod_lt _ (by omega))]
      omega

theorem ofDigitsL_natDigits (n : Nat) : ofDigitsL (natDigits n) = n :=
  ofDigitsL_natDigitsAux _ n (Nat.lt_succ_self n)

theorem natDigits_ne_nil (n : Nat) : natDigits n ≠ [] := by
  unfold natDigits natDigitsAux
  split <;> simp

theorem natDigits_injective : Function.Injective natDigits := by
  intro m n h
  have := ofDigitsL_natDigits m
  rw [h, ofDigitsL_natDigits] at this
  omega

theorem natStr_injective : Function.Injective natStr := by
  intro m n h
  exact natDigits_injective (congrArg String.data h)

end PyStr

theorem safe_float_val_2000 : safe_float "2000" = 2000 := by
  simp +decide [safe_float, pyFloat?, ofDigitsL, digitVal]

theorem safe_float_val_1000_00 : safe_float "$1,000.00" = 1000 := by
  simp +decide [safe_float, pyFloat?, ofDigitsL, digitVal]

theorem safe_float_val_1000_01 : safe_float "$1,000.01" = 100001 / 100 := by
  simp +decide [safe_float, pyFloat?, ofDigitsL, digitVal]
  norm_num

namespace Step4

theorem enrichLoop_out_spec (scrape : Step3Row → Except Unit String) :
    ∀ (rows : List Step3Row) (st : EnrichState), st.out.length ≤ MAX_QUALIFIERS →
      (enrichLoop scrape rows st).out =
        st.out ++ (((rows.filter (qualifies scrape)).take
          (MAX_QUALIFIERS - st.out.length)).map (fun r => (r, rowAmount scrape r))) := by
  intro rows
  induction rows with
  | nil => intro st h; simp [enrichLoop]
  | cons r rest ih =>
    intro st h
    unfold enrichLoop
    by_cases hfull : MAX_QUALIFIERS ≤ st.out.length
    · have : MAX_QUALIFIERS - st.out.length = 0 := by omega
      simp [hfull, this]
    · simp only [if_neg hfull]
      have hlt : st.out.length < MAX_QUALIFIERS := Nat.lt_of_not_le hfull
      by_cases hhref : r.lease_href = ""
      · have hq : qualifies scrape r = false := by simp [qualifies, hhref]
        rw [if_pos hhref, ih st h, List.filter_cons_of_neg (by simp [hq])]
      · rw [if_neg hhref]
        rcases hscr : scrape r with e | t <;> dsimp only [hscr]
        · have hq : qualifies scrape r = false := by simp [qualifies, hhref, hscr]
          rw [ih _ (by simpa using h), List.filter_cons_of_neg (by simp [hq])]
        · by_cases hle : safe_float t ≤ 1000
          · have hq : qualifies scrape r = false := by
              simp [qualifies, hhref, hscr]
              exact hle
            rw [if_pos hle, ih _ (by simpa using h), List.filter_cons_of_neg (by simp [hq])]
          · have hq : qualifies scrape r = true := by
              simp [qualifies, hhref, hscr]
              exact lt_of_not_le hle
            have hamt : rowAmount scrape r = safe_float t := by simp [rowAmount, hscr]
            rw [if_neg hle]
            obtain ⟨m, hm⟩ : ∃ m, MAX_QUALIFIERS - st.out.length = m + 1 :=
              ⟨MAX_QUALIFIERS - st.out.length - 1, by omega⟩
            rw [ih _ (by simp [MAX_QUALIFIERS] at hlt ⊢; omega)]
            have hm2 : MAX_QUALIFIERS - (st.out ++ [(r, safe_float t)]).length = m := by
              simp; omega
            rw [hm2, List.filter_cons_of_pos (by simp [hq]), hm, List.take_succ_cons]
            simp [hamt]

end Step4

namespace Step3

theorem dedup_countP_of_mem_seen :
    ∀ (rows : List CandidateRow) (seen : List String) (k : String), k ≠ "" → k ∈ seen →
      (dedupRows rows seen).countP (fun r => rowKey r == k) = 0 := by
  intro rows
  induction rows with
  | nil => intro seen k hk hmem; simp [dedupRows]
  | cons r rest ih =>
    intro seen k hk hmem
    unfold dedupRows
    by_cases hcond : rowKey r ≠ "" ∧ rowKey r ∈ seen
    · rw [if_pos hcond]; exact ih seen k hk hmem
    · rw [if_neg hcond, List.countP_cons]
      have hne : (rowKey r == k) = false := by
        by_cases he : rowKey r = k
        · subst he
          exact absurd ⟨hk, hmem⟩ hcond
        · simp [he]
      have hzz := ih (rowKey r :: seen) k hk (List.mem_cons_of_mem _ hmem)
      rw [hne]
      simpa using hzz

theorem dedup_countP_find :
    ∀ (rows : List CandidateRow) (seen : List String) (k : String), k ≠ "" → k ∉ seen →
      ((dedupRows rows seen).countP (fun r => rowKey r == k) =
        if (rows.find? (fun r => rowKey r == k)).isSome then 1 else 0) ∧
      (dedupRows rows seen).find? (fun r => rowKey r == k) =
        rows.find? (fun r => rowKey r == k) := by
  intro rows
  induction rows with
  | nil => intro seen k hk hns; simp [dedupRows]
  | cons r rest ih =>
    intro seen k hk hns
    unfold dedupRows
    by_cases he : rowKey r = k
    · subst he
      have hcond : ¬(rowKey r ≠ "" ∧ rowKey r ∈ seen) := by
        intro ⟨_, h2⟩; exact hns h2
      rw [if_neg hcond]
      have hz := dedup_countP_of_mem_seen rest (rowKey r :: seen) (rowKey r) hk
        (List.mem_cons_self _ _)
      constructor
      · rw [List.countP_cons, hz, List.find?_cons_of_pos _ (by simp)]
        simp
      · rw [List.find?_cons_of_pos _ (by simp), List.find?_cons_of_pos _ (by simp)]
    · have hne : (rowKey r == k) = false := by simp [he]
      by_cases hcond : rowKey r ≠ "" ∧ rowKey r ∈ seen
      · rw [if_pos hcond]
        obtain ⟨ihc, ihf⟩ := ih seen k hk hns
        refine ⟨?_, ?_⟩
        · rw [ihc, List.find?_cons_of_neg _ (by simp [hne])]
        · rw [ihf, List.find?_cons_of_neg _ (by simp [hne])]
      · rw [if_neg hcond]
        have hns2 : k ∉ rowKey r :: seen := by
          intro hmem
          rcases List.mem_cons.mp hmem with h1 | h2
          · exact he h1.symm
          · exact hns h2
        obtain ⟨ihc, ihf⟩ := ih (rowKey r :: seen) k hk hns2
        refine ⟨?_, ?_⟩
        · rw [List.countP_cons, hne, ihc, List.find?_cons_of_neg _ (by simp [hne])]
          simp
        · rw [List.find?_cons_of_neg _ (by simp [hne]), ihf,
            List.find?_cons_of_neg _ (by simp [hne])]

end Step3

namespace Step5Details

theorem mapLookup_mem_vals {m : SMap} {k v : String} (h : mapLookup m k = some v) :
    v ∈ m.map (·.2) := by
  unfold mapLookup at h
  rcases ho : m.find? (fun p => p.1 == k) with _ | p
  · rw [ho] at h; simp at h
  · rw [ho] at h
    simp at h
    subst h
    exact List.mem_map_of_mem _ (List.mem_of_find?_eq_some ho)

theorem lookup_county_tier1 (fz : String → List String → List String)
    (href name : String) (bh am : SMap) (ln : List (String × String)) (c : String)
    (h1 : href ≠ "") (h2 : mapLookup bh href = some c) :
    lookup_county fz href name bh am ln = c := by
  unfold lookup_county
  rw [if_pos h1, h2]

theorem lookup_county_tier2 (fz : String → List String → List String)
    (href name : String) (bh am : SMap) (ln : List (String × String)) (c : String)
    (h1 : href = "" ∨ mapLookup bh href = none)
    (h2 : norm name ≠ "") (h3 : mapLookup am (norm name) = some c) :
    lookup_county fz href name bh am ln = c := by
  unfold lookup_county
  have e1 : (if href ≠ "" then mapLookup bh href else none) = none := by
    rcases h1 with h1 | h1 <;> simp [h1]
  rw [e1, if_pos h2, h3]

theorem lookup_county_nomatch (fz : String → List String → List String)
    (href name : String) (bh am : SMap) (ln : List (String × String))
    (h1 : href = "" ∨ mapLookup bh href = none)
    (h2 : norm name = "" ∨ mapLookup am (norm name) = none)
    (h3 : norm name ≠ "" → fz (norm name) (ln.map (·.1)) = []) :
    lookup_county fz href name bh am ln = "" := by
  unfold lookup_county
  have e1 : (if href ≠ "" then mapLookup bh href else none) = none := by
    rcases h1 with h1 | h1 <;> simp [h1]
  rw [e1]
  by_cases hn : norm name = ""
  · rw [if_neg (by simp [hn]), if_neg (by simp [hn])]
  · rcases h2 with h2 | h2
    · exact absurd h2 hn
    · rw [if_pos hn, h2, if_pos hn, h3 hn]

theorem lookup_county_vals (fz : String → List String → List String)
    (href name : String) (bh am : SMap) (ln : List (String × String)) :
    lookup_county fz href name bh am ln = "" ∨
      lookup_county fz href name bh am ln ∈ bh.map (·.2) ∨
      lookup_county fz href name bh am ln ∈ am.map (·.2) ∨
      lookup_county fz href name bh am ln ∈ ln.map (·.2) := by
  unfold lookup_county
  rcases e1 : (if href ≠ "" then mapLookup bh href else none) with _ | c
  · rcases e2 : (if norm name ≠ "" then mapLookup am (norm name) else none) with _ | c
    · rcases e3 : (if norm name ≠ "" then fz (norm name) (ln.map (·.1)) else [])
        with _ | ⟨b, rest⟩
      · rw [e3]
        exact Or.inl rfl
      · rw [e3]
        dsimp only
        rcases e4 : ln.find? (fun p => p.1 == b) with _ | p
        · rw [e4]
          exact Or.inl rfl
        · rw [e4]
          right; right; right
          show p.2 ∈ ln.map (·.2)
          exact List.mem_map_of_mem _ (List.mem_of_find?_eq_some e4)
    · right; right; left
      show c ∈ am.map (·.2)
      split at e2
      · exact mapLookup_mem_vals e2
      · simp at e2
  · right; left
    show c ∈ bh.map (·.2)
    split at e1
    · exact mapLookup_mem_vals e1
    · simp at e1

theorem mapInsertIfAbsent_vals {m : SMap} {k c v : String}
    (h : v ∈ (mapInsertIfAbsent m k c).map (·.2)) : v ∈ m.map (·.2) ∨ v = c := by
  unfold mapInsertIfAbsent at h
  split at h
  · exact Or.inl h
  · rw [List.map_append] at h
    rcases List.mem_append.mp h with h1 | h2
    · exact Or.inl h1
    · simp at h2; exact Or.inr h2

theorem aliasFold_vals (county : String) :
    ∀ (as : List String) (am : SMap) (v : String),
      v ∈ ((as.foldl (fun am a =>
          if norm a ≠ "" then mapInsertIfAbsent am (norm a) county else am) am).map (·.2)) →
      v ∈ am.map (·.2) ∨ v = county := by
  intro as
  induction as with
  | nil => intro am v h; exact Or.inl h
  | cons a rest ih =>
    intro am v h
    simp only [List.foldl_cons] at h
    rcases ih _ v h with h1 | h2
    · split at h1
      · exact mapInsertIfAbsent_vals h1
      · exact Or.inl h1
    · exact Or.inr h2

theorem build_fold_vals (S : List String) :
    ∀ (rows : List CsvRow) (acc : SMap × SMap × List (String × String)),
      (∀ r ∈ rows, pyStrip r.building_county ∈ S) →
      (∀ v ∈ acc.1.map (·.2), v ∈ S) →
      (∀ v ∈ acc.2.1.map (·.2), v ∈ S) →
      (∀ v ∈ acc.2.2.map (·.2), v ∈ S) →
      (∀ v ∈ (rows.foldl buildStep acc).1.map (·.2), v ∈ S) ∧
      (∀ v ∈ (rows.foldl buildStep acc).2.1.map (·.2), v ∈ S) ∧
      (∀ v ∈ (rows.foldl buildStep acc).2.2.map (·.2), v ∈ S) := by
  intro rows
  induction rows with
  | nil => intro acc _ h1 h2 h3; exact ⟨h1, h2, h3⟩
  | cons r rest ih =>
    intro acc hrows h1 h2 h3
    simp only [List.foldl_cons]
    have hc : pyStrip r.building_county ∈ S := hrows r (List.mem_cons_self _ _)
    have hrest : ∀ x ∈ rest, pyStrip x.building_county ∈ S :=
      fun x hx => hrows x (List.mem_cons_of_mem _ hx)
    apply ih _ hrest
    · intro v hv
      simp only [buildStep] at hv
      split at hv
      · split at hv
        all_goals {
          simp only at hv
          split at hv
          · rcases mapInsertIfAbsent_vals hv with h | h
            · exact h1 v h
            · exact h ▸ hc
          · exact h1 v hv
        }
      · exact h1 v hv
    · intro v hv
      simp only [buildStep] at hv
      split at hv
      · split at hv
        · simp only at hv
          rcases aliasFold_vals _ _ _ _ hv with h | h
          · exact h2 v h
          · exact h ▸ hc
        · exact h2 v hv
      · exact h2 v hv
    · intro v hv
      simp only [buildStep] at hv
      split at hv
      · split at hv
        · simp only [List.map_append] at hv
          rcases List.mem_append.mp hv with h | h
          · exact h3 v h
          · simp at h; exact h ▸ hc
        · exact h3 v hv
      · exact h3 v hv

end Step5Details

namespace Step5Notices

theorem lookup_county_tier1_gn (fz : String → List String → List String)
    (href name : String) (bh nm : Step5Details.SMap) (ln : List (String × String))
    (c : String) (h1 : href ≠ "") (h2 : Step5Details.mapLookup bh href = some c) :
    lookup_county fz href name bh nm ln = c := by
  unfold lookup_county
  rw [if_pos h1, h2]

theorem lookup_county_tier2_gn (fz : String → List String → List String)
    (href name : String) (bh nm : Step5Details.SMap) (ln : List (String × String))
    (c : String) (h1 : href = "" ∨ Step5Details.mapLookup bh href = none)
    (h2 : norm name ≠ "") (h3 : Step5Details.mapLookup nm (norm name) = some c) :
    lookup_county fz href name bh nm ln = c := by
  unfold lookup_county
  have e1 : (if href ≠ "" then Step5Details.mapLookup bh href else none) = none := by
    rcases h1 with h1 | h1 <;> simp [h1]
  rw [e1, if_pos h2, h3]

theorem lookup_county_nomatch_gn (fz : String → List String → List String)
    (href name : String) (bh nm : Step5Details.SMap) (ln : List (String × String))
    (h1 : href = "" ∨ Step5Details.mapLookup bh href = none)
    (h2 : norm name = "" ∨ Step5Details.mapLookup nm (norm name) = none)
    (h3 : norm name ≠ "" → fz (norm name) (ln.map (·.1)) = []) :
    lookup_county fz href name bh nm ln = "" := by
  unfold lookup_county
  have e1 : (if href ≠ "" then Step5Details.mapLookup bh href else none) = none := by
    rcases h1 with h1 | h1 <;> simp [h1]
  rw [e1]
  by_cases hn : norm name = ""
  · rw [if_neg (by simp [hn]), if_neg (by simp [hn])]
  · rcases h2 with h2 | h2
    · exact absurd h2 hn
    · rw [if_pos hn, h2, if_pos hn, h3 hn]

end Step5Notices

namespace Step6

theorem eupCand_inj (stem suffix : String) :
    Function.Injective (fun i : Nat => stem ++ "_" ++ natStr i ++ suffix) := by
  intro i j h
  simp only at h
  have hd := congrArg String.data h
  simp only [String.data_append] at hd
  have hd2 := List.append_cancel_right hd
  have hd3 := List.append_cancel_left hd2
  exact natStr_injective (congrArg String.mk hd3)

theorem eup_exists_free (fs : List String) (stem suffix : String) :
    ¬ ∀ j ∈ List.range' 2 (fs.length + 1), stem ++ "_" ++ natStr j ++ suffix ∈ fs := by
  intro hall
  have hnd : ((List.range' 2 (fs.length + 1)).map
      (fun j => stem ++ "_" ++ natStr j ++ suffix)).Nodup :=
    List.Nodup.map (eupCand_inj stem suffix) (List.nodup_range' _ _)
  have hsub : ∀ x ∈ (List.range' 2 (fs.length + 1)).map
      (fun j => stem ++ "_" ++ natStr j ++ suffix), x ∈ fs := by
    intro x hx
    obtain ⟨j, hj, rfl⟩ := List.mem_map.mp hx
    exact hall j hj
  have h2 := List.toFinset_card_of_nodup hnd
  have h3 : ((List.range' 2 (fs.length + 1)).map
      (fun j => stem ++ "_" ++ natStr j ++ suffix)).toFinset ⊆ fs.toFinset :=
    fun x hx => List.mem_toFinset.mpr (hsub x (List.mem_toFinset.mp hx))
  have h4 := Finset.card_le_card h3
  have h5 := fs.toFinset_card_le
  simp [List.length_map, List.length_range'] at h2
  omega

theorem eupLoop_not_mem (fs : List String) (stem suffix : String) :
    ∀ (fuel i : Nat),
      (¬ ∀ j ∈ List.range' i fuel, stem ++ "_" ++ natStr j ++ suffix ∈ fs) →
      eupLoop fs stem suffix fuel i ∉ fs := by
  intro fuel
  induction fuel with
  | zero => intro i h; exact absurd (by simp) h
  | succ fuel ih =>
    intro i h
    unfold eupLoop
    by_cases hc : stem ++ "_" ++ natStr i ++ suffix ∈ fs
    · rw [if_pos hc]
      apply ih
      intro hall
      apply h
      intro j hj
      rw [List.range'_succ] at hj
      rcases List.mem_cons.mp hj with rfl | hj2
      · exact hc
      · exact hall j hj2
    · rw [if_neg hc]
      exact hc

theorem ensure_unique_path_not_mem (fs : List String) (stem suffix : String) :
    ensure_unique_path fs stem suffix ∉ fs := by
  unfold ensure_unique_path
  by_cases h : stem ++ suffix ∈ fs
  · rw [if_pos h]
    exact eupLoop_not_mem fs stem suffix _ 2 (eup_exists_free fs stem suffix)
  · rw [if_neg h]
    exact h

theorem genRun_fresh_nodup (dateDir : String) :
    ∀ (tenants fs : List String),
      (∀ p ∈ genRun dateDir fs tenants, p ∉ fs) ∧ (genRun dateDir fs tenants).Nodup := by
  intro tenants
  induction tenants with
  | nil => intro fs; simp [genRun]
  | cons tenant rest ih =>
    intro fs
    simp only [genRun]
    obtain ⟨ihf, ihn⟩ := ih (ensure_unique_path fs (dateDir ++ "_" ++ safe_name tenant)
      ".docx" :: fs)
    constructor
    · intro q hq
      rcases List.mem_cons.mp hq with rfl | hq2
      · exact ensure_unique_path_not_mem fs _ _
      · intro hqfs
        exact (ihf q hq2) (List.mem_cons_of_mem _ hqfs)
    · refine List.nodup_cons.mpr ⟨?_, ihn⟩
      intro hmem
      exact (ihf _ hmem) (List.mem_cons_self _ _)

end Step6

namespace PyStr

theorem ne_of_isDigit {c x : Char} (h : c.isDigit = true) (hx : x.isDigit = false) :
    c ≠ x := by
  intro he
  rw [he, hx] at h
  cases h

theorem pyIsSpace_eq_false_of_isDigit {c : Char} (h : c.isDigit = true) :
    pyIsSpace c = false := by
  by_contra hb
  rw [Bool.not_eq_false] at hb
  unfold pyIsSpace at hb
  simp only [Bool.or_eq_true, decide_eq_true_eq] at hb
  rcases hb with ((((hc | hc) | hc) | hc) | hc) | hc <;> subst hc <;>
    exact absurd h (by decide)

theorem stripL_of_no_space {l : List Char} (h : ∀ x ∈ l, pyIsSpace x = false) :
    stripL l = l := by
  have h1 : lstripL l = l := by
    cases l with
    | nil => rfl
    | cons c t => simp [lstripL, List.dropWhile_cons, h c (by simp)]
  have h2 : rstripL l = l := by
    unfold rstripL
    cases hrev : l.reverse with
    | nil =>
      have : l = [] := by simpa using congrArg List.reverse hrev
      subst this
      simp
    | cons c t =>
      have hc : c ∈ l := by
        rw [← List.mem_reverse, hrev]
        exact List.mem_cons_self _ _
      rw [List.dropWhile_cons, h c hc]
      simp only [Bool.false_eq_true, if_false, ← hrev, List.reverse_reverse]
  unfold stripL
  rw [h1, h2]

theorem takeWhile_append_of_head_neg {p : Char → Bool} :
    ∀ (xs : List Char) (y : Char) (ys : List Char), (∀ c ∈ xs, p c = true) → p y = false →
      (xs ++ y :: ys).takeWhile p = xs := by
  intro xs
  induction xs with
  | nil => intro y ys _ hy; simp [List.takeWhile_cons, hy]
  | cons x t ih =>
    intro y ys hall hy
    rw [List.cons_append, List.takeWhile_cons, hall x (by simp),
      ih y ys (fun c hc => hall c (List.mem_cons_of_mem _ hc)) hy]
    simp

end PyStr

namespace Money

theorem twoDigits_isDigit (m : Nat) : ∀ c ∈ twoDigits m, c.isDigit = true := by
  intro c hc
  simp [twoDigits] at hc
  rcases hc with rfl | rfl <;> exact decDigit_isDigit _

theorem ofDigitsL_twoDigits {m : Nat} (h : m < 100) : ofDigitsL (twoDigits m) = m := by
  simp [twoDigits, ofDigitsL, digitVal_decDigit (show m / 10 < 10 by omega),
    digitVal_decDigit (show m % 10 < 10 by omega)]
  omega

theorem filter_group3Rev (p : Char → Bool) (hp : p ',' = false) :
    ∀ (l : List Char) (k : Nat), (∀ c ∈ l, p c = true) → (group3Rev l k).filter p = l := by
  intro l
  induction l with
  | nil => intro k _; cases k <;> simp [group3Rev]
  | cons c t ih =>
    intro k h
    have hc : p c = true := h c (List.mem_cons_self _ _)
    have ht : ∀ x ∈ t, p x = true := fun x hx => h x (List.mem_cons_of_mem _ hx)
    cases k with
    | zero => simp [group3Rev, List.filter_cons, hp, hc, ih 2 ht]
    | succ k => simp [group3Rev, List.filter_cons, hc, ih k ht]

theorem filter_group3 (p : Char → Bool) (hp : p ',' = false) {ds : List Char}
    (h : ∀ c ∈ ds, p c = true) : (group3 ds).filter p = ds := by
  unfold group3
  rw [List.filter_reverse,
    filter_group3Rev p hp ds.reverse _ (fun c hc => h c (List.mem_reverse.mp hc)),
    List.reverse_reverse]

theorem filter_fmtCents (c : ℤ) : (fmtCentsL c).filter (· ≠ ',') = plainCentsL c := by
  unfold fmtCentsL plainCentsL
  have hsign : (if c < 0 then ['-'] else ([] : List Char)).filter (· ≠ ',') =
      (if c < 0 then ['-'] else []) := by
    split <;> decide
  have hdot : ('.' :: twoDigits (c.natAbs % 100)).filter (· ≠ ',') =
      '.' :: twoDigits (c.natAbs % 100) := by
    apply List.filter_eq_self.mpr
    intro a ha
    rcases List.mem_cons.mp ha with rfl | ha
    · decide
    · simpa using ne_of_isDigit (twoDigits_isDigit _ a ha) (by decide)
  rw [List.filter_append, List.filter_append, hsign, hdot,
    filter_group3 _ (by decide) (fun x hx => by
      simpa using ne_of_isDigit (natDigits_isDigit _ x hx) (by decide))]

theorem no_space_plainCents (c : ℤ) : ∀ x ∈ plainCentsL c, pyIsSpace x = false := by
  intro x hx
  unfold plainCentsL at hx
  rcases List.mem_append.mp hx with h1 | h2
  · rcases List.mem_append.mp h1 with ha | hb
    · split at ha <;> simp at ha
      subst ha; decide
    · exact pyIsSpace_eq_false_of_isDigit (natDigits_isDigit _ x hb)
  · rcases List.mem_cons.mp h2 with rfl | h2
    · decide
    · exact pyIsSpace_eq_false_of_isDigit (twoDigits_isDigit _ x h2)

end Money

theorem pyFloat?_digits_dot (ip fp : List Char) (h1 : ip ≠ [])
    (h2 : ∀ c ∈ ip, c.isDigit = true) (h3 : ∀ c ∈ fp, c.isDigit = true) :
    pyFloat? ⟨ip ++ '.' :: fp⟩ =
      some ((ofDigitsL ip : ℚ) + (ofDigitsL fp : ℚ) / (10 : ℚ) ^ fp.length) := by
  obtain ⟨d, ds, rfl⟩ := List.exists_cons_of_ne_nil h1
  have hd : d.isDigit = true := h2 d (List.mem_cons_self _ _)
  have hdm : d ≠ '-' := ne_of_isDigit hd (by decide)
  have hdp : d ≠ '+' := ne_of_isDigit hd (by decide)
  have hhead : ((d :: ds) ++ '.' :: fp).head? = some d := rfl
  have htw : ((d :: ds) ++ '.' :: fp).takeWhile Char.isDigit = d :: ds :=
    takeWhile_append_of_head_neg _ _ _ h2 (by decide)
  simp only [pyFloat?]
  have hb : (decide ((d :: ds ++ '.' :: fp).head? = some '-') ||
      decide ((d :: ds ++ '.' :: fp).head? = some '+')) = false := by
    rw [hhead]
    simp [hdm, hdp]
  rw [hb]
  simp only [Bool.false_eq_true, if_false]
  rw [htw, List.drop_left]
  rw [if_neg (by simp : ¬('.' :: fp = []))]
  have hall : (('.' :: fp).tail.all Char.isDigit) = true := by
    rw [List.tail_cons]
    exact List.all_eq_true.mpr h3
  rw [if_pos ⟨rfl, hall, Or.inl (by simp)⟩]
  rw [if_neg (by rw [hhead]; simp [hdm])]
  simp

namespace Money

theorem pyFloat?_neg_digits_dot (ip fp : List Char) (h1 : ip ≠ [])
    (h2 : ∀ c ∈ ip, c.isDigit = true) (h3 : ∀ c ∈ fp, c.isDigit = true) :
    pyFloat? ⟨'-' :: (ip ++ '.' :: fp)⟩ =
      some (-((ofDigitsL ip : ℚ) + (ofDigitsL fp : ℚ) / (10 : ℚ) ^ fp.length)) := by
  obtain ⟨d, ds, rfl⟩ := List.exists_cons_of_ne_nil h1
  have htw : ((d :: ds) ++ '.' :: fp).takeWhile Char.isDigit = d :: ds :=
    takeWhile_append_of_head_neg _ _ _ h2 (by decide)
  simp only [pyFloat?]
  have hb : (decide (('-' :: (d :: ds ++ '.' :: fp)).head? = some '-') ||
      decide (('-' :: (d :: ds ++ '.' :: fp)).head? = some '+')) = true := by
    simp
  rw [hb]
  simp only [if_true, List.tail_cons]
  rw [htw, List.drop_left]
  rw [if_neg (by simp : ¬('.' :: fp = []))]
  have hall : (('.' :: fp).tail.all Char.isDigit) = true := by
    rw [List.tail_cons]
    exact List.all_eq_true.mpr h3
  rw [if_pos ⟨rfl, hall, Or.inl (by simp)⟩]
  rw [if_pos (by simp : ('-' :: (d :: ds ++ '.' :: fp)).head? = some '-')]
  simp

theorem pyFloat?_plainCents (c : ℤ) :
    pyFloat? ⟨plainCentsL c⟩ = some ((c : ℚ) / 100) := by
  have harith : ∀ n : Nat, ((ofDigitsL (natDigits (n / 100)) : ℚ) +
      (ofDigitsL (twoDigits (n % 100)) : ℚ) / (10 : ℚ) ^ (twoDigits (n % 100)).length) =
      (n : ℚ) / 100 := by
    intro n
    rw [ofDigitsL_natDigits, ofDigitsL_twoDigits (Nat.mod_lt _ (by norm_num))]
    have hmod : 100 * (n / 100) + n % 100 = n := Nat.div_add_mod n 100
    have hq : ((n : ℚ)) = 100 * ((n / 100 : ℕ) : ℚ) + ((n % 100 : ℕ) : ℚ) := by
      exact_mod_cast hmod.symm
    rw [hq]
    show ((n / 100 : ℕ) : ℚ) + ((n % 100 : ℕ) : ℚ) / (10 : ℚ) ^ 2 = _
    ring
  by_cases hneg : c < 0
  · obtain ⟨n, rfl⟩ : ∃ n : ℕ, c = -(n : ℤ) := ⟨c.natAbs, by omega⟩
    have hnat : (-(n : ℤ)).natAbs = n := by simp
    have hplain : plainCentsL (-(n : ℤ)) = '-' :: (natDigits (n / 100) ++
        '.' :: twoDigits (n % 100)) := by
      simp only [plainCentsL, hnat, if_pos hneg]
      rfl
    rw [hplain, pyFloat?_neg_digits_dot _ _ (natDigits_ne_nil _)
      (natDigits_isDigit _) (twoDigits_isDigit _), harith]
    exact congrArg some (by push_cast; ring)
  · obtain ⟨n, rfl⟩ : ∃ n : ℕ, c = (n : ℤ) := ⟨c.natAbs, by omega⟩
    have hnat : ((n : ℤ)).natAbs = n := by simp
    have hplain : plainCentsL (n : ℤ) = natDigits (n / 100) ++
        '.' :: twoDigits (n % 100) := by
      simp only [plainCentsL, hnat, if_neg hneg]
      rfl
    rw [hplain, pyFloat?_digits_dot _ _ (natDigits_ne_nil _)
      (natDigits_isDigit _) (twoDigits_isDigit _), harith]
    exact congrArg some (by push_cast; ring)

theorem rnd2_intCast_div (c : ℤ) : rnd2 ((c : ℚ) / 100) = c := by
  have h100 : (100 : ℚ) * ((c : ℚ) / 100) = (c : ℚ) := by field_simp
  unfold rnd2
  rw [h100, Int.floor_intCast]
  rw [if_pos (by norm_num)]

end Money

theorem money_fmt_step (s : String) (q : ℚ)
    (h : pyFloat? (pyStrip (removeCommas s)) = some q) :
    money_fmt s = ⟨Money.fmtCentsL (Money.rnd2 q)⟩ := by
  unfold money_fmt
  rw [h]

theorem money_fmt_fmtCents (c : ℤ) :
    money_fmt ⟨Money.fmtCentsL c⟩ = ⟨Money.fmtCentsL c⟩ := by
  have h2 : removeCommas ⟨Money.fmtCentsL c⟩ = ⟨Money.plainCentsL c⟩ :=
    congrArg String.mk (Money.filter_fmtCents c)
  have h3 : pyStrip ⟨Money.plainCentsL c⟩ = ⟨Money.plainCentsL c⟩ :=
    congrArg String.mk (stripL_of_no_space (Money.no_space_plainCents c))
  unfold money_fmt
  rw [h2, h3, Money.pyFloat?_plainCents]
  dsimp only
  rw [Money.rnd2_intCast_div]


/-- C1 (counterexample): with eleven candidates that all parse to a due amount
of 2000 (strictly above the threshold), the Enricher emits only the first ten;
the eleventh qualifying candidate appears in no output record, refuting "no
qualifying candidate is omitted from the enriched output". -/
theorem C1_cex_eleventh_qualifier_omitted :
    (⟨"L11", "", "", ""⟩ : Step4.Step3Row) ∈ elevenRows ∧
    Step4.qualifies scrapeTwoThousand ⟨"L11", "", "", ""⟩ = true ∧
    (Step4.enrichRun scrapeTwoThousand elevenRows).out.length = 10 ∧
    ((Step4.enrichRun scrapeTwoThousand elevenRows).out.all
      (fun q => q.1 ≠ ⟨"L11", "", "", ""⟩)) = true := by
  refine ⟨by decide, ?_, ?_, ?_⟩
  · simp +decide [Step4.qualifies, scrapeTwoThousand, safe_float_val_2000]
  · simp +decide [Step4.enrichRun, Step4.enrichLoop, elevenRows, scrapeTwoThousand,
      safe_float_val_2000, Step4.MAX_QUALIFIERS]
  · simp +decide [Step4.enrichRun, Step4.enrichLoop, elevenRows, scrapeTwoThousand,
      safe_float_val_2000, Step4.MAX_QUALIFIERS]

/-- C1 (amended): the Enricher emits, in input order, exactly the first
`MAX_QUALIFIERS` (= 10) candidates that have a nonempty lease link, scrape
successfully, and whose parsed due amount strictly exceeds 1000; every
qualifying candidate beyond that cap, every candidate without a lease link,
and every candidate whose scrape fails is omitted, and candidates at or below
the threshold are skipped. -/
theorem C1_amended_enricher_emits_first_ten_qualifiers
    (scrape : Step4.Step3Row → Except Unit String) (rows : List Step4.Step3Row) :
    (Step4.enrichRun scrape rows).out =
      ((rows.filter (Step4.qualifies scrape)).take Step4.MAX_QUALIFIERS).map
        (fun r => (r, Step4.rowAmount scrape r)) := by
  simpa using Step4.enrichLoop_out_spec scrape rows ⟨[], 0, 0⟩ (by simp [Step4.MAX_QUALIFIERS])

/-- C2 (counterexample): on `aliasShadowRows` the query "Bob" has an exact
normalized-name match (lease "Bob", Contra Costa), yet `lookup_county`
returns Alameda, found through the alias decomposition of "Bob & Carol":
the code has no exact-name tier consulted before the alias map, so it is not
the four-tier priority the spec describes (the spec-modelled four-tier lookup
returns Contra Costa here). -/
theorem C2_cex_alias_shadows_exact_name :
    Step5Details.norm "Bob" = "bob" ∧
    ("bob", "Contra Costa") ∈ (Step5Details.build_maps_step3 aliasShadowRows).2.2 ∧
    Step5Details.lookup_county fzNone "" "Bob"
      (Step5Details.build_maps_step3 aliasShadowRows).1
      (Step5Details.build_maps_step3 aliasShadowRows).2.1
      (Step5Details.build_maps_step3 aliasShadowRows).2.2 = "Alameda" ∧
    Step5Details.lookup_county_specFourTier fzNone aliasShadowRows "" "Bob" =
      "Contra Costa" := by
  refine ⟨by decide, by decide, by decide, by decide⟩

/-- C2 (amended): both reconciler implementations are three-tier, not
four-tier, with first-hit-wins ordering.  `step5_other_details.lookup_county`:
(1) exact lease-link match is returned regardless of the fuzzy matcher (so a
link match beats any fuzzy candidate); (2) the alias map — which indexes both
whole non-compound names and alias tokens of compound names — is consulted
only on a link miss; (3) with both missing and no fuzzy candidate the result
is the empty string.  `step5_generate_notices.lookup_county`: (4) exact
lease-link first; (5) exact normalized lease-name only on a link miss; it has
no alias tier at all. -/
theorem C2_amended_three_tier_priority :
    (∀ (fz : String → List String → List String) (href name : String)
        (bh am : Step5Details.SMap) (ln : List (String × String)) (c : String),
      href ≠ "" → Step5Details.mapLookup bh href = some c →
        Step5Details.lookup_county fz href name bh am ln = c) ∧
    (∀ fz href name bh am ln c,
      (href = "" ∨ Step5Details.mapLookup bh href = none) →
      Step5Details.norm name ≠ "" →
      Step5Details.mapLookup am (Step5Details.norm name) = some c →
        Step5Details.lookup_county fz href name bh am ln = c) ∧
    (∀ fz href name bh am ln,
      (href = "" ∨ Step5Details.mapLookup bh href = none) →
      (Step5Details.norm name = "" ∨
        Step5Details.mapLookup am (Step5Details.norm name) = none) →
      (Step5Details.norm name ≠ "" →
        fz (Step5Details.norm name) (ln.map (·.1)) = []) →
        Step5Details.lookup_county fz href name bh am ln = "") ∧
    (∀ fz href name bh nm ln c,
      href ≠ "" → Step5Details.mapLookup bh href = some c →
        Step5Notices.lookup_county fz href name bh nm ln = c) ∧
    (∀ fz href name bh nm ln c,
      (href = "" ∨ Step5Details.mapLookup bh href = none) →
      Step5Notices.norm name ≠ "" →
      Step5Details.mapLookup nm (Step5Notices.norm name) = some c →
        Step5Notices.lookup_county fz href name bh nm ln = c) :=
  ⟨Step5Details.lookup_county_tier1, Step5Details.lookup_county_tier2,
   Step5Details.lookup_county_nomatch, Step5Notices.lookup_county_tier1_gn,
   Step5Notices.lookup_county_tier2_gn⟩

/-- C2 (witness): the amended tier-ordering applied at a concrete input — a
lease-link hit "H" returns its county. -/
theorem C2_amended_witness :
    Step5Details.lookup_county fzNone "H" "x" [("H", "Alameda")] [] [] = "Alameda" :=
  C2_amended_three_tier_priority.1 fzNone "H" "x" [("H", "Alameda")] [] [] "Alameda"
    (by decide) (by decide)

/-- C3 (counterexample): Step 4 persists its artifact by opening
`rows_step4.csv` for truncating write directly — no temporary file and no
replace — so its write is not atomic, refuting "every pipeline stage writes
its output artifact atomically". -/
theorem C3_cex_step4_output_truncated_in_place :
    FsTrace.writesAtomically FsTrace.step4Persist "data/debug/rows_step4.csv" = false := by
  decide

/-- C3 (amended): only `rxtract._safe_write_csv` writes via
temporary-then-replace; steps 3, 4 and 5 open their final artifact directly in
write (truncate) mode, so an interruption mid-write can leave the artifact
half-written. -/
theorem C3_amended_direct_write_not_atomic :
    FsTrace.writesAtomically FsTrace.step3Persist "data/debug/rows_sample.csv" = false ∧
    FsTrace.writesAtomically FsTrace.step4Persist "data/debug/rows_step4.csv" = false ∧
    (∀ out : String, FsTrace.writesAtomically (FsTrace.step5Persist out) out = false) ∧
    (∀ prev : Bool,
      FsTrace.writesAtomically (FsTrace.rxtractPersist prev)
        "data/debug/sample_details.csv" = true) := by
  refine ⟨by decide, by decide, ?_, ?_⟩
  · intro out
    simp [FsTrace.writesAtomically, FsTrace.step5Persist]
  · intro prev
    cases prev <;> decide

/-- C4: the Enricher's inclusion gate is strict greater-than.  A candidate
whose "Total Unpaid" text parses to exactly 1000.00 is excluded and counted as
skipped; one parsing to 1000.01 is included; and in general a single-candidate
run emits a record iff the lease link is nonempty and the parsed amount
strictly exceeds 1000. -/
theorem C4_threshold_strict_greater :
    Step4.enrichRun (fun _ => Except.ok "$1,000.00") [⟨"L1", "", "", ""⟩] =
        ⟨[], 1, 0⟩ ∧
    Step4.enrichRun (fun _ => Except.ok "$1,000.01") [⟨"L1", "", "", ""⟩] =
        ⟨[(⟨"L1", "", "", ""⟩, 100001 / 100)], 0, 0⟩ ∧
    ∀ (s : String) (r : Step4.Step3Row),
      (Step4.enrichRun (fun _ => Except.ok s) [r]).out ≠ [] ↔
        (r.lease_href ≠ "" ∧ 1000 < safe_float s) := by
  refine ⟨?_, ?_, ?_⟩
  · simp +decide [Step4.enrichRun, Step4.enrichLoop, safe_float_val_1000_00,
      Step4.MAX_QUALIFIERS]
  · simp +decide [Step4.enrichRun, Step4.enrichLoop, safe_float_val_1000_01,
      Step4.MAX_QUALIFIERS]
    norm_num
  · intro s r
    by_cases hhref : r.lease_href = ""
    · simp [Step4.enrichRun, Step4.enrichLoop, Step4.MAX_QUALIFIERS, hhref]
    · by_cases hle : safe_float s ≤ 1000
      · simp only [Step4.enrichRun, Step4.enrichLoop]
        simp [hhref, hle, Step4.MAX_QUALIFIERS]
      · simp only [Step4.enrichRun, Step4.enrichLoop]
        simp [hhref, hle, Step4.MAX_QUALIFIERS]
        exact lt_of_not_le hle

/-- C5: the city-derivation heuristic maps
"1656 84th Ave Apt 2 Oakland, CA 94621" to "Oakland" (skipping the digit
token "2" and the keyword "Apt" because no city token was collected yet) and
"123 Main St San Jose, CA 95112" to "San Jose" (stopping at the keyword "St"
after collecting two city tokens). -/
theorem C5_city_extraction_examples :
    city_from_tenant_address "1656 84th Ave Apt 2 Oakland, CA 94621" = "Oakland" ∧
    city_from_tenant_address "123 Main St San Jose, CA 95112" = "San Jose" := by
  decide

/-- C6: on an owners table with exactly one row the returned owner name is
that row's name, and with two or more rows it is the second row's name. -/
theorem C6_owner_second_row_rule :
    (∀ r : Step4.OwnerRow,
      Step4.scrape_second_owner_name [r] = Step4.ownerRowName r) ∧
    (∀ (r1 r2 : Step4.OwnerRow) (rest : List Step4.OwnerRow),
      Step4.scrape_second_owner_name (r1 :: r2 :: rest) = Step4.ownerRowName r2) := by
  constructor
  · intro r
    simp [Step4.scrape_second_owner_name]
  · intro r1 r2 rest
    simp [Step4.scrape_second_owner_name, List.getD]

/-- C7: across all pages, rows sharing one (nonempty) dedup key — the lease
link, or the unit-link|portfolio-link composite when the lease link is empty —
collapse to exactly one CandidateRecord, and that record is the first-seen
row with that key. -/
theorem C7_dedup_first_seen_wins (pages : List (List Step3.CandidateRow))
    (k : String) (hk : k ≠ "")
    (hex : ∃ r ∈ pages.flatten, Step3.rowKey r = k) :
    (Step3.harvest pages).countP (fun r => Step3.rowKey r == k) = 1 ∧
    (Step3.harvest pages).find? (fun r => Step3.rowKey r == k) =
      pages.flatten.find? (fun r => Step3.rowKey r == k) := by
  have h := Step3.dedup_countP_find pages.flatten [] k hk (by simp)
  have hsome : (pages.flatten.find? (fun r => Step3.rowKey r == k)).isSome := by
    rw [List.find?_isSome]
    obtain ⟨r, hr, hkey⟩ := hex
    exact ⟨r, hr, by simp [hkey]⟩
  refine ⟨?_, h.2⟩
  rw [Step3.harvest, h.1, if_pos hsome]

/-- C7 (witness): two rows on different pages share the lease link "LH"; the
harvest keeps exactly one record for that key, the first-seen one. -/
theorem C7_dedup_witness :
    (Step3.harvest [[⟨"u1", "uh1", "p1", "ph1", "l1", "LH", "Alameda"⟩],
        [⟨"u2", "uh2", "p2", "ph2", "l2", "LH", "Contra Costa"⟩]]).countP
      (fun r => Step3.rowKey r == "LH") = 1 ∧
    (Step3.harvest [[⟨"u1", "uh1", "p1", "ph1", "l1", "LH", "Alameda"⟩],
        [⟨"u2", "uh2", "p2", "ph2", "l2", "LH", "Contra Costa"⟩]]).find?
      (fun r => Step3.rowKey r == "LH") =
      ([[⟨"u1", "uh1", "p1", "ph1", "l1", "LH", "Alameda"⟩],
        [⟨"u2", "uh2", "p2", "ph2", "l2", "LH", "Contra Costa"⟩]] :
          List (List Step3.CandidateRow)).flatten.find?
        (fun r => Step3.rowKey r == "LH") :=
  C7_dedup_first_seen_wins
    [[⟨"u1", "uh1", "p1", "ph1", "l1", "LH", "Alameda"⟩],
     [⟨"u2", "uh2", "p2", "ph2", "l2", "LH", "Contra Costa"⟩]]
    "LH" (by decide)
    ⟨⟨"u1", "uh1", "p1", "ph1", "l1", "LH", "Alameda"⟩, by decide, by decide⟩

/-- C8 (counterexample): in `steps/step6_generate.py` the collision counter is
keyed by base name only.  With tenants "X", "X", "X_2" on one date, the second
record gets the suffixed name `06-01-24_X_2.docx` — but the third record's own
base name is the same string, and since its base name was never used it gets
no suffix: two records are assigned the identical path, and the later
`doc.save` overwrites the earlier document.  This refutes "no previously
written document is ever overwritten and all colliding records yield distinct
existing files". -/
theorem C8_cex_counter_collision_overwrite :
    Steps6.assignNames [("06-01-24", "X"), ("06-01-24", "X"), ("06-01-24", "X_2")] [] =
      ["06-01-24/06-01-24_X.docx", "06-01-24/06-01-24_X_2.docx",
       "06-01-24/06-01-24_X_2.docx"] ∧
    ¬ (Steps6.assignNames
        [("06-01-24", "X"), ("06-01-24", "X"), ("06-01-24", "X_2")] []).Nodup := by
  refine ⟨by decide, by decide⟩

/-- C8 (amended): the disk-probing generator (`step6_generate.py`,
`ensure_unique_path`) realises the claim: every assigned path is absent from
the file system at save time (nothing is overwritten, including files from
before the run), the paths of one run are pairwise distinct, and two records
sharing the name slug "John_Smith" yield `06-01-24_John_Smith.docx` and
`06-01-24_John_Smith_2.docx`.  The in-memory-counter generator
(`steps/step6_generate.py`) guarantees this only when no record's base name
coincides with another record's suffixed name (see the counterexample). -/
theorem C8_amended_collision_handling :
    (∀ (dateDir : String) (fs tenants : List String),
      ∀ p ∈ Step6.genRun dateDir fs tenants, p ∉ fs) ∧
    (∀ (dateDir : String) (fs tenants : List String),
      (Step6.genRun dateDir fs tenants).Nodup) ∧
    Step6.genRun "06-01-24" [] ["John_Smith", "John_Smith"] =
      ["06-01-24_John_Smith.docx", "06-01-24_John_Smith_2.docx"] := by
  refine ⟨?_, ?_, by decide⟩
  · intro dateDir fs tenants
    exact (Step6.genRun_fresh_nodup dateDir tenants fs).1
  · intro dateDir fs tenants
    exact (Step6.genRun_fresh_nodup dateDir tenants fs).2

/-- C8 (witness): the no-overwrite clause at a concrete input — with
`06-01-24_John_Smith.docx` already on disk, the single record "John_Smith" is
saved to the fresh path `06-01-24_John_Smith_2.docx`. -/
theorem C8_amended_witness :
    "06-01-24_John_Smith_2.docx" ∉ (["06-01-24_John_Smith.docx"] : List String) :=
  C8_amended_collision_handling.1 "06-01-24" ["06-01-24_John_Smith.docx"]
    ["John_Smith"] "06-01-24_John_Smith_2.docx" (by decide)

/-- C9: when no reconciliation tier matches — no lease-link hit, no
alias/exact-name hit, and the fuzzy matcher returns no candidate — both
lookup implementations return exactly the empty string; and whatever the
fuzzy matcher does, the jurisdiction attached by
`step5_other_details.lookup_county` over the maps built from the Step-3 rows
is either empty or one of those rows' (stripped) county values — never a
value absent from the Harvester's dataset. -/
theorem C9_no_match_empty_jurisdiction :
    (∀ (fz : String → List String → List String) (href name : String)
        (bh am : Step5Details.SMap) (ln : List (String × String)),
      (href = "" ∨ Step5Details.mapLookup bh href = none) →
      (Step5Details.norm name = "" ∨
        Step5Details.mapLookup am (Step5Details.norm name) = none) →
      (Step5Details.norm name ≠ "" →
        fz (Step5Details.norm name) (ln.map (·.1)) = []) →
        Step5Details.lookup_county fz href name bh am ln = "") ∧
    (∀ (fz : String → List String → List String) (href name : String)
        (bh nm : Step5Details.SMap) (ln : List (String × String)),
      (href = "" ∨ Step5Details.mapLookup bh href = none) →
      (Step5Notices.norm name = "" ∨
        Step5Details.mapLookup nm (Step5Notices.norm name) = none) →
      (Step5Notices.norm name ≠ "" →
        fz (Step5Notices.norm name) (ln.map (·.1)) = []) →
        Step5Notices.lookup_county fz href name bh nm ln = "") ∧
    (∀ (fz : String → List String → List String)
        (rows : List Step5Details.CsvRow) (href name : String),
      Step5Details.lookup_county fz href name
          (Step5Details.build_maps_step3 rows).1
          (Step5Details.build_maps_step3 rows).2.1
          (Step5Details.build_maps_step3 rows).2.2 = "" ∨
        Step5Details.lookup_county fz href name
          (Step5Details.build_maps_step3 rows).1
          (Step5Details.build_maps_step3 rows).2.1
          (Step5Details.build_maps_step3 rows).2.2 ∈
          rows.map (fun r => pyStrip r.building_county)) := by
  refine ⟨Step5Details.lookup_county_nomatch, Step5Notices.lookup_county_nomatch_gn, ?_⟩
  intro fz rows href name
  have hb := Step5Details.build_fold_vals (rows.map (fun r => pyStrip r.building_county))
    rows ([], [], []) (fun r hr => List.mem_map_of_mem _ hr)
    (by simp) (by simp) (by simp)
  rcases Step5Details.lookup_county_vals fz href name
      (Step5Details.build_maps_step3 rows).1
      (Step5Details.build_maps_step3 rows).2.1
      (Step5Details.build_maps_step3 rows).2.2 with h | h | h | h
  · exact Or.inl h
  · exact Or.inr (hb.1 _ h)
  · exact Or.inr (hb.2.1 _ h)
  · exact Or.inr (hb.2.2 _ h)

/-- C9 (witness): with empty maps and a fuzzy matcher returning nothing, both
lookups attach the empty string. -/
theorem C9_no_match_witness :
    Step5Details.lookup_county fzNone "" "zz" [] [] [] = "" ∧
    Step5Notices.lookup_county fzNone "" "zz" [] [] [] = "" :=
  ⟨C9_no_match_empty_jurisdiction.1 fzNone "" "zz" [] [] []
      (Or.inl rfl) (Or.inr rfl) (fun _ => rfl),
   C9_no_match_empty_jurisdiction.2.1 fzNone "" "zz" [] [] []
      (Or.inl rfl) (Or.inr rfl) (fun _ => rfl)⟩

/-- C10: `money_fmt` is idempotent: re-applying it to its own output (as the
document-generation step does to the AmountDue field the previous step already
formatted) changes nothing, both on values it can parse and on values it
passes through unchanged. -/
theorem C10_money_fmt_idempotent (s : String) :
    money_fmt (money_fmt s) = money_fmt s := by
  cases h : pyFloat? (pyStrip (removeCommas s)) with
  | none =>
    have h1 : money_fmt s = s := by
      unfold money_fmt
      rw [h]
    rw [h1]
    exact h1
  | some q =>
    have h1 := money_fmt_step s q h
    rw [h1, money_fmt_fmtCents]
